import Mathlib

/-!
Verification of the HireAI orchestration core and the JD-analyzer agent.

The definitions below are a shallow embedding in Lean of the Python sources
src/base_agent.py (BaseAgent, OrchestratorAgent) and src/JD_analyser.py
(JDAnalyzerAgent).  Python dictionaries keyed by strings are embedded as
association lists with Python insertion/overwrite semantics; Python
exceptions are embedded as Except; the asyncio execution loop of a single
process is embedded as a fuel-indexed recursive function over the
orchestrator state, with the unique suspension point (the await of
agent.receive_message) exposed through an explicit pause signal.
-/

namespace HireAI

/-! Dictionaries.  A Python dict with string keys is embedded as an
association list in insertion order.  dget is d.get(k) / d[k], dset is
d[k] = v (overwrite in place when the key exists, append otherwise), and
dupdate is d.update(e) (iterate over the items of e, setting each key). -/

abbrev Dict (α : Type) : Type := List (String × α)

def dget {α : Type} : Dict α → String → Option α
  | [], _ => none
  | (k', v) :: rest, k => if k' = k then some v else dget rest k

def dset {α : Type} : Dict α → String → α → Dict α
  | [], k, v => [(k, v)]
  | (k', v') :: rest, k, v =>
      if k' = k then (k, v) :: rest else (k', v') :: dset rest k v

def dupdate {α : Type} (d e : Dict α) : Dict α :=
  e.foldl (fun acc kv => dset acc kv.1 kv.2) d

def dkeys {α : Type} (d : Dict α) : List String := d.map Prod.fst

theorem dget_dset_self {α : Type} (d : Dict α) (k : String) (v : α) :
    dget (dset d k v) k = some v := by
  induction d with
  | nil => simp [dset, dget]
  | cons kv rest ih =>
      obtain ⟨k', v'⟩ := kv
      by_cases h : k' = k
      · simp [dset, h, dget]
      · simp [dset, h, dget, ih]

theorem dget_dset_ne {α : Type} (d : Dict α) (k k' : String) (v : α)
    (h : k ≠ k') : dget (dset d k v) k' = dget d k' := by
  induction d with
  | nil => simp [dset, dget, h]
  | cons kv rest ih =>
      obtain ⟨k1, v1⟩ := kv
      by_cases h1 : k1 = k
      · subst h1
        simp [dset, dget, h]
      · simp [dset, h1, dget, ih]

theorem dget_eq_none_iff {α : Type} (d : Dict α) (k : String) :
    dget d k = none ↔ k ∉ dkeys d := by
  induction d with
  | nil => simp [dget, dkeys]
  | cons kv rest ih =>
      obtain ⟨k', v'⟩ := kv
      by_cases h : k' = k
      · subst h
        simp [dget, dkeys]
      · have h' : ¬ k = k' := fun hh => h hh.symm
        simp [dget, h, dkeys, h', ih]

theorem dset_of_fresh {α : Type} (d : Dict α) (k : String) (v : α)
    (h : dget d k = none) : dset d k v = d ++ [(k, v)] := by
  induction d with
  | nil => simp [dset]
  | cons kv rest ih =>
      obtain ⟨k', v'⟩ := kv
      by_cases hk : k' = k
      · simp [dget, hk] at h
      · simp [dget, hk] at h
        simp [dset, hk, ih h]

/-! The behavior of d.update(e): every key of e takes the value from e,
keys absent from e are untouched, and no key is ever removed. -/

theorem dget_dupdate_of_none {α : Type} (d e : Dict α) (k : String) :
    dget e k = none → dget (dupdate d e) k = dget d k := by
  induction e generalizing d with
  | nil => intro _; rfl
  | cons kv rest ih =>
      intro h
      obtain ⟨k1, v1⟩ := kv
      by_cases h1 : k1 = k
      · simp [dget, h1] at h
      · simp only [dget, if_neg h1] at h
        have hstep : dupdate d ((k1, v1) :: rest)
            = dupdate (dset d k1 v1) rest := rfl
        rw [hstep, ih (dset d k1 v1) h, dget_dset_ne d k1 k v1 h1]

theorem dget_dupdate_of_some {α : Type} (d e : Dict α) (k : String) (v : α) :
    (dkeys e).Nodup → dget e k = some v →
      dget (dupdate d e) k = some v := by
  induction e generalizing d with
  | nil => intro _ h; simp [dget] at h
  | cons kv rest ih =>
      intro hnd h
      obtain ⟨k1, v1⟩ := kv
      rw [show dkeys ((k1, v1) :: rest) = k1 :: dkeys rest from rfl,
        List.nodup_cons] at hnd
      have hstep : dupdate d ((k1, v1) :: rest)
          = dupdate (dset d k1 v1) rest := rfl
      by_cases h1 : k1 = k
      · subst h1
        have hv : v1 = v := by simpa [dget] using h
        have hrest : dget rest k1 = none := (dget_eq_none_iff rest k1).2 hnd.1
        rw [hstep, dget_dupdate_of_none _ _ _ hrest, dget_dset_self, hv]
      · simp only [dget, if_neg h1] at h
        rw [hstep]
        exact ih (dset d k1 v1) hnd.2 h

theorem dget_dupdate_isSome {α : Type} (d e : Dict α) (k : String) :
    (dget (dupdate d e) k).isSome
      = ((dget d k).isSome || (dget e k).isSome) := by
  induction e generalizing d with
  | nil => simp [dupdate, dget]
  | cons kv rest ih =>
      obtain ⟨k1, v1⟩ := kv
      have hstep : dupdate d ((k1, v1) :: rest)
          = dupdate (dset d k1 v1) rest := rfl
      rw [hstep, ih]
      by_cases h1 : k1 = k
      · subst h1
        simp [dget_dset_self, dget]
      · rw [dget_dset_ne d k1 k v1 h1]
        simp [dget, h1]

/-! Agent contract (BaseAgent, src/base_agent.py lines 7-66).

An agent owns an inbox, an outbox and a status flag.  The agent-specific
handler BaseAgent.process_message is the one point of polymorphism; it is
embedded as a function from the incoming message to Except, where
Except.error models a Python exception escaping the handler.  The concrete
handlers of this repository read only the message, never the inbox, outbox
or status, so a pure handler is a faithful embedding for receive_message. -/

def sIdle : String := "idle"
def sProcessing : String := "processing"

structure AgentState (M : Type) where
  inbox : List M
  outbox : List M
  status : String
deriving DecidableEq

/-- Embedding of BaseAgent.receive_message (src/base_agent.py lines 38-51):
append the message to the inbox, set status to processing, run the handler;
on normal return append the response to the outbox, reset status to idle and
return the response; a handler exception propagates, leaving the state as it
was at the point of the fault. -/
def receive_message {M F : Type} (handler : M → Except F M)
    (a : AgentState M) (message : M) : AgentState M × Except F M :=
  let a1 : AgentState M :=
    { a with inbox := a.inbox ++ [message], status := sProcessing }
  match handler message with
  | Except.ok response =>
      ({ a1 with outbox := a1.outbox ++ [response], status := sIdle },
        Except.ok response)
  | Except.error e => (a1, Except.error e)

/-- Claim C7: for every agent and every message, when the agent-specific
handler returns normally, receive_message appends the incoming message to
the inbox, invokes the handler, appends the handler response to the outbox,
leaves the agent status equal to idle on return, and returns exactly the
handler response. -/
theorem receive_message_success_behavior {M F : Type}
    (handler : M → Except F M) (a : AgentState M) (m r : M)
    (h : handler m = Except.ok r) :
    receive_message handler a m =
      ({ inbox := a.inbox ++ [m], outbox := a.outbox ++ [r],
         status := sIdle }, Except.ok r) := by
  simp [receive_message, h]

/-- Witness for C7 at a concrete handler, agent state and message. -/
theorem receive_message_success_behavior_witness :
    receive_message (fun n : Nat => (Except.ok (n + 1) : Except Unit Nat))
        ⟨[7], [8], sIdle⟩ 3 =
      (⟨[7, 3], [8, 4], sIdle⟩, Except.ok 4) := by
  exact receive_message_success_behavior
    (fun n : Nat => (Except.ok (n + 1) : Except Unit Nat))
    ⟨[7], [8], sIdle⟩ 3 4 rfl

/-- Claim C10: for every agent and every message, if the agent-specific
handler faults, receive_message propagates the fault and leaves the agent
with status still equal to processing and the incoming message appended to
the inbox but no response appended to the outbox: the state is not restored
on error. -/
theorem receive_message_fault_behavior {M F : Type}
    (handler : M → Except F M) (a : AgentState M) (m : M) (f : F)
    (h : handler m = Except.error f) :
    receive_message handler a m =
      ({ inbox := a.inbox ++ [m], outbox := a.outbox,
         status := sProcessing }, Except.error f) := by
  simp [receive_message, h]

/-- Witness for C10 at a concrete faulting handler. -/
theorem receive_message_fault_behavior_witness :
    receive_message (fun _ : Nat => (Except.error () : Except Unit Nat))
        ⟨[7], [8], sIdle⟩ 3 =
      (⟨[7, 3], [8], sProcessing⟩, Except.error ()) := by
  exact receive_message_fault_behavior
    (fun _ : Nat => (Except.error () : Except Unit Nat))
    ⟨[7], [8], sIdle⟩ 3 () rfl

/-! Decimal representation round-trip.  start_workflow allocates process ids
with the f-string "process_" followed by str(len(active_processes) + 1);
str on a non-negative int is embedded as Nat.repr.  The lemmas below recover
the number from its decimal digits, giving injectivity of the id scheme. -/

def digitVal (c : Char) : Nat := c.toNat - 48

def decVal (l : List Char) : Nat := l.foldl (fun a c => a * 10 + digitVal c) 0

theorem digitVal_digitChar {d : Nat} (h : d < 10) :
    digitVal (Nat.digitChar d) = d := by
  interval_cases d <;> rfl

theorem toDigitsCore_foldl (fuel : Nat) :
    ∀ n ds acc, n < fuel →
      ∃ k, (Nat.toDigitsCore 10 fuel n ds).foldl
            (fun a c => a * 10 + digitVal c) acc
        = ds.foldl (fun a c => a * 10 + digitVal c) (acc * 10 ^ k + n) := by
  induction fuel with
  | zero => intro n ds acc h; omega
  | succ fuel ih =>
      intro n ds acc _
      by_cases h10 : n / 10 = 0
      · refine ⟨1, ?_⟩
        have hn : n < 10 := (Nat.div_eq_zero_iff (by omega)).1 h10
        have hmod : n % 10 = n := Nat.mod_eq_of_lt hn
        simp only [Nat.toDigitsCore, h10, if_pos, List.foldl_cons]
        rw [hmod, digitVal_digitChar hn]
        norm_num
      · have hn10 : 10 ≤ n := by
          by_contra hlt
          exact h10 (Nat.div_eq_zero_iff (by omega) |>.2 (by omega))
        have hdec : n / 10 < fuel := by
          have h1 : n / 10 < n := Nat.div_lt_self (by omega) (by omega)
          omega
        obtain ⟨k, hk⟩ := ih (n / 10) (Nat.digitChar (n % 10) :: ds) acc hdec
        refine ⟨k + 1, ?_⟩
        simp only [Nat.toDigitsCore, h10, if_neg, ite_false]
        rw [hk]
        simp only [List.foldl_cons]
        rw [digitVal_digitChar (Nat.mod_lt n (by omega))]
        have harg : (acc * 10 ^ k + n / 10) * 10 + n % 10
            = acc * 10 ^ (k + 1) + n := by
          have h1 : acc * 10 ^ (k + 1) = acc * 10 ^ k * 10 := by ring
          rw [h1]
          generalize acc * 10 ^ k = A
          omega
        rw [harg]

theorem decVal_toDigits (n : Nat) : decVal (Nat.toDigits 10 n) = n := by
  obtain ⟨k, hk⟩ := toDigitsCore_foldl (n + 1) n [] 0 (by omega)
  simpa [Nat.toDigits, decVal] using hk

/-- The process id allocated when the active-process table has n entries
(src/base_agent.py line 121: "process_" followed by str(count + 1)). -/
def pidOf (n : Nat) : String := "process_" ++ Nat.repr (n + 1)

theorem repr_injective {a b : Nat} (h : Nat.repr a = Nat.repr b) : a = b := by
  have hd : (Nat.toDigits 10 a) = (Nat.toDigits 10 b) := by
    have := congrArg String.data h
    simpa [Nat.repr, List.asString] using this
  have := congrArg decVal hd
  rwa [decVal_toDigits, decVal_toDigits] at this

theorem pidOf_injective : Function.Injective pidOf := by
  intro a b h
  have hd := congrArg String.data h
  simp only [pidOf, String.data_append] at hd
  have h2 : (Nat.repr (a + 1)).data = (Nat.repr (b + 1)).data :=
    List.append_cancel_left hd
  have h3 : Nat.repr (a + 1) = Nat.repr (b + 1) := by
    cases hra : Nat.repr (a + 1) with
    | mk la =>
        cases hrb : Nat.repr (b + 1) with
        | mk lb =>
            rw [hra, hrb] at h2
            exact congrArg String.mk (by simpa using h2)
  have := repr_injective h3
  omega

/-! Orchestrator data model (OrchestratorAgent, src/base_agent.py 74-240).

A workflow step is a dict with agent_id, message_type and an optional
transition dict; only a transition containing next_step influences the
loop (line 172-176), so transition is embedded as Option Nat.  A process
record holds workflow_id, current_step, data and status (lines 122-127).
The orchestrator state is the triple of its registries and the
active-process table.  asyncio.create_task schedules _execute_workflow
concurrently; the loop is embedded as the separate function
execute_workflow below, applied to the state once the scheduler runs the
task, and the single suspension point of the loop (the await at line 166)
is exposed by the pauseAt signal: pauseAt = some k means a
pause_process control message for this process is handled while the k-th
dispatch (0-based) of this run is in flight. -/

def sRunning : String := "running"
def sPaused : String := "paused"
def sCompleted : String := "completed"
def sError : String := "error"

structure Step where
  agent_id : String
  message_type : String
  transition : Option Nat
deriving DecidableEq, Inhabited

structure Msg (V : Type) where
  process_id : String
  type : String
  data : Dict V
  workflow_id : String
  step_id : Nat
deriving DecidableEq, Inhabited

structure Process (V : Type) where
  workflow_id : String
  current_step : Nat
  data : Dict V
  status : String
deriving DecidableEq

/-- Response of an agent handler as consumed by the execution loop: the
loop reads only response.get("data", {}) of the returned message
(src/base_agent.py line 169), embedded here as the data field. -/
structure Rsp (V : Type) where
  data : Dict V
deriving DecidableEq

/-- Behavior of a registered agent at the await of agent.receive_message:
either a response message or a propagating handler fault. -/
abbrev AgentBehavior (V : Type) := Msg V → Except Unit (Rsp V)

structure OrchState (V : Type) where
  agents : Dict (AgentBehavior V)
  workflows : Dict (List Step)
  active_processes : Dict (Process V)

structure Dispatch (V : Type) where
  agent_id : String
  message : Msg V
deriving DecidableEq, Inhabited

/-- Result of running the execution loop of one process: the orchestrator
state after the run, the dispatches performed in order, whether a handler
fault escaped the loop, and whether the fuel bound was hit before the
Python loop would have exited. -/
structure LoopResult (V : Type) where
  state : OrchState V
  dispatches : List (Dispatch V)
  faulted : Bool
  fuelOut : Bool

def setProc {V : Type} (st : OrchState V) (pid : String) (p : Process V) :
    OrchState V :=
  { st with active_processes := dset st.active_processes pid p }

theorem dget_setProc_self {V : Type} (st : OrchState V) (pid : String)
    (q : Process V) :
    dget (setProc st pid q).active_processes pid = some q :=
  dget_dset_self _ _ _

theorem dget_setProc_ne {V : Type} (st : OrchState V) (pid pid' : String)
    (q : Process V) (h : pid ≠ pid') :
    dget (setProc st pid q).active_processes pid'
      = dget st.active_processes pid' :=
  dget_dset_ne _ _ _ _ h

/-- Embedding of OrchestratorAgent.start_workflow (lines 107-132): raise
ValueError when the workflow id is unregistered (str(None) prints None),
otherwise allocate the id from the current table size, insert the new
running process, schedule the loop and return the id. -/
def start_workflow {V : Type} (st : OrchState V) (workflow_id : Option String)
    (initial_data : Dict V) : Except String String × OrchState V :=
  match workflow_id with
  | some w =>
      if (dget st.workflows w).isSome then
        let process_id := pidOf st.active_processes.length
        (Except.ok process_id,
          setProc st process_id ⟨w, 0, initial_data, sRunning⟩)
      else
        (Except.error ("Workflow not found: " ++ w), st)
  | none => (Except.error ("Workflow not found: None"), st)

def sStartWorkflow : String := "start_workflow"
def sGetProcessStatus : String := "get_process_status"
def sPauseProcess : String := "pause_process"
def sProcessNotFound : String := "Process not found"
def sUnknown : String := "unknown"

/-- Inbound control message for the orchestrator: message.get of the four
fields read by process_message, each possibly absent. -/
structure CtrlMsg (V : Type) where
  type : Option String
  workflow_id : Option String
  data : Option (Dict V)
  process_id : Option String

/-- The response dict literals built by OrchestratorAgent.process_message,
one constructor per shape (lines 199-240).  In errorRsp the outer Option
records whether the process_id field is present at all (the unknown-type
error omits it) and the inner Option is the possibly-None echoed id. -/
inductive CtrlResponse where
  | workflowStarted (process_id : String) (status : String)
  | processStatus (process_id : Option String) (status : String)
      (current_step : Nat) (workflow_id : String)
  | processPaused (process_id : Option String)
  | errorRsp (error : String) (process_id : Option (Option String))
deriving DecidableEq

/-- Embedding of OrchestratorAgent.process_message (lines 183-240).  The
Except on the left is an exception escaping the handler: the only source
is the uncaught ValueError of start_workflow. -/
def orchestrator_process_message {V : Type} (st : OrchState V)
    (message : CtrlMsg V) : Except String CtrlResponse × OrchState V :=
  let message_type := message.type.getD sUnknown
  if message_type = sStartWorkflow then
    match start_workflow st message.workflow_id (message.data.getD []) with
    | (Except.ok process_id, st') =>
        (Except.ok (CtrlResponse.workflowStarted process_id sRunning), st')
    | (Except.error e, st') => (Except.error e, st')
  else if message_type = sGetProcessStatus then
    match message.process_id with
    | some pid =>
        match dget st.active_processes pid with
        | some p =>
            (Except.ok (CtrlResponse.processStatus (some pid) p.status
              p.current_step p.workflow_id), st)
        | none =>
            (Except.ok (CtrlResponse.errorRsp sProcessNotFound
              (some (some pid))), st)
    | none =>
        (Except.ok (CtrlResponse.errorRsp sProcessNotFound (some none)), st)
  else if message_type = sPauseProcess then
    match message.process_id with
    | some pid =>
        match dget st.active_processes pid with
        | some p =>
            (Except.ok (CtrlResponse.processPaused (some pid)),
              setProc st pid { p with status := sPaused })
        | none =>
            (Except.ok (CtrlResponse.errorRsp sProcessNotFound
              (some (some pid))), st)
    | none =>
        (Except.ok (CtrlResponse.errorRsp sProcessNotFound (some none)), st)
  else
    (Except.ok (CtrlResponse.errorRsp
      ("Unknown message type: " ++ message_type) none), st)

/-- The step fetched by workflow[current_step] (line 145); out-of-range
reads cannot occur because the loop guards the index first. -/
def stepAt (wf : List Step) (i : Nat) : Step := wf.getD i default

/-- Embedding of the while loop of OrchestratorAgent._execute_workflow
(lines 144-181), fuel-indexed because an explicit next_step transition can
make the Python loop run forever.  dc counts the dispatches performed so
far in this run; a pause_process control message arriving while dispatch
number dc is in flight is applied when that await returns, before the
response is merged, exactly as the single-threaded asyncio scheduler would
interleave it. -/
def execLoop {V : Type} (pid : String) (wf : List Step)
    (pauseAt : Option Nat) : Nat → OrchState V → Nat → LoopResult V
  | 0, st, _ => ⟨st, [], false, true⟩
  | fuel + 1, st, dc =>
      match dget st.active_processes pid with
      | none => ⟨st, [], true, false⟩
      | some p =>
          if p.current_step < wf.length then
            if p.status = sRunning then
              let step := stepAt wf p.current_step
              match dget st.agents step.agent_id with
              | none =>
                  ⟨setProc st pid { p with status := sError }, [], false,
                    false⟩
              | some behavior =>
                  let msg : Msg V := ⟨pid, step.message_type, p.data,
                    p.workflow_id, p.current_step⟩
                  let paused := pauseAt = some dc
                  match behavior msg with
                  | Except.error _ =>
                      ⟨(if paused then
                          setProc st pid { p with status := sPaused }
                        else st), [⟨step.agent_id, msg⟩], true, false⟩
                  | Except.ok rsp =>
                      let next := match step.transition with
                        | some n => n
                        | none => p.current_step + 1
                      let base := if paused then sPaused else p.status
                      let newStatus :=
                        if wf.length ≤ next then sCompleted else base
                      let p2 : Process V := ⟨p.workflow_id, next,
                        dupdate p.data rsp.data, newStatus⟩
                      let r := execLoop pid wf pauseAt fuel
                        (setProc st pid p2) (dc + 1)
                      ⟨r.state, ⟨step.agent_id, msg⟩ :: r.dispatches,
                        r.faulted, r.fuelOut⟩
            else ⟨st, [], false, false⟩
          else ⟨st, [], false, false⟩

/-- Embedding of _execute_workflow as scheduled by start_workflow: the two
table reads at lines 141-142 (a missing key raises KeyError, recorded as a
fault) followed by the loop. -/
def execute_workflow {V : Type} (fuel : Nat) (pauseAt : Option Nat)
    (st : OrchState V) (pid : String) : LoopResult V :=
  match dget st.active_processes pid with
  | none => ⟨st, [], true, false⟩
  | some p =>
      match dget st.workflows p.workflow_id with
      | none => ⟨st, [], true, false⟩
      | some wf => execLoop pid wf pauseAt fuel st 0

/-- A sequence of synchronous start_workflow calls, collecting the ids of
the successful ones (claim C9). -/
def runStarts {V : Type} :
    OrchState V → List (Option String × Dict V) → OrchState V × List String
  | st, [] => (st, [])
  | st, (w, d) :: rest =>
      match start_workflow st w d with
      | (Except.ok pid, st') =>
          let r := runStarts st' rest
          (r.1, pid :: r.2)
      | (Except.error _, st') => runStarts st' rest

/-- Invariant of the active-process table reachable by start_workflow from
an empty table: the keys are exactly process_1 .. process_n in order. -/
def canonicalTable {V : Type} (st : OrchState V) : Prop :=
  dkeys st.active_processes
    = (List.range st.active_processes.length).map pidOf

/-- Claim C8: start_workflow on an unregistered workflow id raises the
Workflow-not-found error before any process is created: the orchestrator
state, in particular the active-process table and the id-allocation state
derived from its size, is exactly what it was before the call. -/
theorem start_workflow_not_found {V : Type} (st : OrchState V)
    (w : String) (d : Dict V) (h : dget st.workflows w = none) :
    start_workflow st (some w) d
      = (Except.error ("Workflow not found: " ++ w), st) := by
  simp [start_workflow, h]

def stEmpty : OrchState Nat := ⟨[], [], []⟩

/-- Witness for C8 on an orchestrator with no registered workflows. -/
theorem start_workflow_not_found_witness :
    start_workflow stEmpty (some ("missing")) []
      = (Except.error ("Workflow not found: missing"), stEmpty) := by
  exact start_workflow_not_found stEmpty ("missing") [] rfl

theorem start_workflow_error_state {V : Type} (st : OrchState V)
    (w : Option String) (d : Dict V) (e : String) (st' : OrchState V)
    (h : start_workflow st w d = (Except.error e, st')) : st' = st := by
  cases w with
  | none =>
      have := congrArg Prod.snd h
      simpa [start_workflow] using this.symm
  | some w =>
      by_cases hw : (dget st.workflows w).isSome
      · have := congrArg Prod.fst h
        simp [start_workflow, hw] at this
      · have := congrArg Prod.snd h
        simpa [start_workflow, hw] using this.symm

theorem start_workflow_fresh {V : Type} (st : OrchState V)
    (w : Option String) (d : Dict V) (pid : String) (st' : OrchState V)
    (hc : canonicalTable st)
    (h : start_workflow st w d = (Except.ok pid, st')) :
    dget st.active_processes pid = none ∧
      pid = pidOf st.active_processes.length ∧
      canonicalTable st' ∧
      st'.active_processes.length = st.active_processes.length + 1 := by
  cases w with
  | none =>
      have := congrArg Prod.fst h
      simp [start_workflow] at this
  | some w =>
      by_cases hw : (dget st.workflows w).isSome
      · have h1 := congrArg Prod.fst h
        have h2 := congrArg Prod.snd h
        simp [start_workflow, hw] at h1 h2
        have hfresh : dget st.active_processes
            (pidOf st.active_processes.length) = none := by
          rw [dget_eq_none_iff, hc]
          intro hmem
          obtain ⟨i, hi, hpi⟩ := List.mem_map.1 hmem
          have := pidOf_injective hpi
          rw [List.mem_range] at hi
          omega
        refine ⟨h1 ▸ hfresh, h1.symm, ?_, ?_⟩
        · rw [← h2]
          unfold canonicalTable setProc
          simp only
          rw [dset_of_fresh _ _ _ hfresh]
          have hkeys : dkeys (st.active_processes
              ++ [(pidOf st.active_processes.length,
                  (⟨w, 0, d, sRunning⟩ : Process V))])
              = dkeys st.active_processes
                  ++ [pidOf st.active_processes.length] := by
            simp [dkeys]
          rw [hkeys, hc]
          simp [List.range_succ]
        · rw [← h2]
          unfold setProc
          simp only
          rw [dset_of_fresh _ _ _ hfresh]
          simp
      · have := congrArg Prod.fst h
        simp [start_workflow, hw] at this

theorem runStarts_canonical {V : Type}
    (calls : List (Option String × Dict V)) :
    ∀ st : OrchState V, canonicalTable st →
      ∃ m, (runStarts st calls).2
          = (List.range' st.active_processes.length m).map pidOf ∧
        canonicalTable (runStarts st calls).1 := by
  induction calls with
  | nil => intro st hc; exact ⟨0, by simp [runStarts], hc⟩
  | cons c rest ih =>
      intro st hc
      obtain ⟨w, d⟩ := c
      rcases hsw : start_workflow st w d with ⟨res, st'⟩
      cases res with
      | ok pid =>
          obtain ⟨hfresh, hpid, hc', hlen⟩ :=
            start_workflow_fresh st w d pid st' hc hsw
          obtain ⟨m, hm, hcf⟩ := ih st' hc'
          refine ⟨m + 1, ?_, ?_⟩
          · simp only [runStarts, hsw]
            rw [hm, hlen, hpid, List.range'_succ]
            simp
          · simp only [runStarts, hsw]
            exact hcf
      | error e =>
          have hst : st' = st := start_workflow_error_state st w d e st' hsw
          obtain ⟨m, hm, hcf⟩ := ih st' (hst ▸ hc)
          refine ⟨m, ?_, ?_⟩
          · simp only [runStarts, hsw]
            rw [hm, hst]
          · simp only [runStarts, hsw]
            exact hcf

/-- Claim C9: process ids allocated by start_workflow are unique for the
lifetime of the orchestrator: starting from an empty active-process table,
no two successful start_workflow calls in a sequence return the same id,
and from any table reachable by the allocation scheme the freshly
allocated id is absent from the table at creation time. -/
theorem process_ids_unique {V : Type} (st : OrchState V)
    (calls : List (Option String × Dict V))
    (hstart : st.active_processes = []) :
    (runStarts st calls).2.Nodup ∧
      (∀ st1 : OrchState V, ∀ w d pid st2, canonicalTable st1 →
        start_workflow st1 w d = (Except.ok pid, st2) →
        dget st1.active_processes pid = none) := by
  constructor
  · have hc : canonicalTable st := by
      simp [canonicalTable, hstart, dkeys]
    obtain ⟨m, hm, _⟩ := runStarts_canonical calls st hc
    rw [hm]
    exact (List.nodup_range' _ _).map pidOf_injective
  · intro st1 w d pid st2 hc1 hsw
    exact (start_workflow_fresh st1 w d pid st2 hc1 hsw).1

def stC9 : OrchState Nat := ⟨[], [("w", [])], []⟩

/-- Witness for C9: two successful starts of the same workflow from a
fresh orchestrator yield distinct process ids. -/
theorem process_ids_unique_witness :
    (runStarts stC9 [(some ("w"), []), (some ("w"), [])]).2.Nodup := by
  exact (process_ids_unique stC9 [(some ("w"), []), (some ("w"), [])] rfl).1

/-- Claim C6: merging a step response into process data is last-write-wins
per key with no key removal: every key present in the response takes the
value from the response, every key absent from the response keeps its
prior value, and a key is present after the merge exactly when it was
present before or is contributed by the response. -/
theorem merge_last_write_wins {V : Type} (d e : Dict V)
    (hnd : (dkeys e).Nodup) :
    (∀ k v, dget e k = some v → dget (dupdate d e) k = some v) ∧
    (∀ k, dget e k = none → dget (dupdate d e) k = dget d k) ∧
    (∀ k, (dget (dupdate d e) k).isSome
        = ((dget d k).isSome || (dget e k).isSome)) :=
  ⟨fun k v h => dget_dupdate_of_some d e k v hnd h,
    fun k h => dget_dupdate_of_none d e k h,
    fun k => dget_dupdate_isSome d e k⟩

/-- Witness for C6, the example of the claim: responses contributing
x maps-to 1 and then x maps-to 2, y maps-to 3 leave x = 2, y = 3, and the
untouched initial key z keeps its value 9. -/
theorem merge_last_write_wins_witness :
    dget (dupdate (dupdate ([(("z"), 9), (("x"), 0)] : Dict Nat)
        [(("x"), 1)]) [(("x"), 2), (("y"), 3)]) ("x") = some 2 ∧
    dget (dupdate (dupdate ([(("z"), 9), (("x"), 0)] : Dict Nat)
        [(("x"), 1)]) [(("x"), 2), (("y"), 3)]) ("y") = some 3 ∧
    dget (dupdate (dupdate ([(("z"), 9), (("x"), 0)] : Dict Nat)
        [(("x"), 1)]) [(("x"), 2), (("y"), 3)]) ("z") = some 9 := by
  refine ⟨?_, ?_, ?_⟩
  · exact (merge_last_write_wins _ [(("x"), 2), (("y"), 3)]
      (by decide)).1 ("x") 2 (by decide)
  · exact (merge_last_write_wins _ [(("x"), 2), (("y"), 3)]
      (by decide)).1 ("y") 3 (by decide)
  · exact ((merge_last_write_wins _ [(("x"), 2), (("y"), 3)]
      (by decide)).2.1 ("z") (by decide)).trans (by decide)

def okB {ε α : Type} : Except ε α → Bool
  | Except.ok _ => true
  | Except.error _ => false

/-- Counterexample to claim C2: the start_workflow branch of
process_message calls start_workflow without catching its ValueError, so a
control message naming an unregistered workflow id makes process_message
raise instead of returning an error response. -/
theorem orchestrator_process_message_raises :
    orchestrator_process_message stEmpty
        ⟨some sStartWorkflow, some ("nope"), none, none⟩
      = (Except.error ("Workflow not found: nope"), stEmpty) := by
  rfl

/-- Claim C2 amended: process_message never raises on the
get_process_status, pause_process and unknown-type branches, always
returning a well-formed response message; on the start_workflow branch it
returns normally exactly when the message carries a registered
workflow_id, and otherwise the Workflow-not-found ValueError escapes to
the caller. -/
theorem orchestrator_process_message_total {V : Type} (st : OrchState V)
    (message : CtrlMsg V) :
    (message.type.getD sUnknown ≠ sStartWorkflow →
      ∃ r st', orchestrator_process_message st message
        = (Except.ok r, st')) ∧
    (message.type.getD sUnknown = sStartWorkflow →
      (okB (orchestrator_process_message st message).1 = true ↔
        ∃ w, message.workflow_id = some w
          ∧ (dget st.workflows w).isSome)) := by
  have hgs : (sGetProcessStatus = sStartWorkflow) = False := by
    simp [sGetProcessStatus, sStartWorkflow]
  have hps : (sPauseProcess = sStartWorkflow) = False := by
    simp [sPauseProcess, sStartWorkflow]
  have hpg : (sPauseProcess = sGetProcessStatus) = False := by
    simp [sPauseProcess, sGetProcessStatus]
  constructor
  · intro hne
    by_cases h2 : message.type.getD sUnknown = sGetProcessStatus
    · cases hpid : message.process_id with
      | none =>
          refine ⟨CtrlResponse.errorRsp sProcessNotFound (some none),
            st, ?_⟩
          simp [orchestrator_process_message, hne, h2, hgs, hpid]
      | some pid =>
          cases hp : dget st.active_processes pid with
          | none =>
              refine ⟨CtrlResponse.errorRsp sProcessNotFound
                (some (some pid)), st, ?_⟩
              simp [orchestrator_process_message, hne, h2, hgs, hpid, hp]
          | some p =>
              refine ⟨CtrlResponse.processStatus (some pid) p.status
                p.current_step p.workflow_id, st, ?_⟩
              simp [orchestrator_process_message, hne, h2, hgs, hpid, hp]
    · by_cases h3 : message.type.getD sUnknown = sPauseProcess
      · cases hpid : message.process_id with
        | none =>
            refine ⟨CtrlResponse.errorRsp sProcessNotFound (some none),
              st, ?_⟩
            simp [orchestrator_process_message, hne, h2, h3, hps, hpg,
              hpid]
        | some pid =>
            cases hp : dget st.active_processes pid with
            | none =>
                refine ⟨CtrlResponse.errorRsp sProcessNotFound
                  (some (some pid)), st, ?_⟩
                simp [orchestrator_process_message, hne, h2, h3, hps,
                  hpg, hpid, hp]
            | some p =>
                refine ⟨CtrlResponse.processPaused (some pid),
                  setProc st pid { p with status := sPaused }, ?_⟩
                simp [orchestrator_process_message, hne, h2, h3, hps,
                  hpg, hpid, hp]
      · refine ⟨CtrlResponse.errorRsp
            ("Unknown message type: " ++ message.type.getD sUnknown)
            none, st, ?_⟩
        simp [orchestrator_process_message, hne, h2, h3]
  · intro heq
    cases hw : message.workflow_id with
    | none =>
        simp [orchestrator_process_message, heq, start_workflow,
          hw, okB]
    | some w =>
        by_cases hreg : (dget st.workflows w).isSome
        · simp [orchestrator_process_message, heq,
            start_workflow, hw, hreg, okB]
        · simp [orchestrator_process_message, heq,
            start_workflow, hw, hreg, okB]

/-- Witness for the amended C2 on a concrete non-start control message:
get_process_status of an unknown process returns normally. -/
theorem orchestrator_process_message_total_witness :
    ∃ r st', orchestrator_process_message stEmpty
        ⟨some sGetProcessStatus, none, none, some ("p1")⟩
      = (Except.ok r, st') := by
  exact (orchestrator_process_message_total stEmpty
    ⟨some sGetProcessStatus, none, none, some ("p1")⟩).1 (by decide)

/-- Claim C5: a step whose agent_id does not resolve in the agent registry
is fatal to the owning process only: the loop sets that process to status
error with the cursor frozen at the failing step, performs no dispatch,
does not fault, and leaves the agent registry, the workflow registry and
every other process entry unchanged. -/
theorem agent_not_found_fatal {V : Type} (st : OrchState V) (pid : String)
    (p : Process V) (wf : List Step) (fuel : Nat) (pauseAt : Option Nat)
    (hp : dget st.active_processes pid = some p)
    (hw : dget st.workflows p.workflow_id = some wf)
    (hrun : p.status = sRunning)
    (hcur : p.current_step < wf.length)
    (hagent : dget st.agents (stepAt wf p.current_step).agent_id = none)
    (hfuel : 1 ≤ fuel) :
    (execute_workflow fuel pauseAt st pid).dispatches = [] ∧
    (execute_workflow fuel pauseAt st pid).faulted = false ∧
    dget (execute_workflow fuel pauseAt st pid).state.active_processes pid
      = some ⟨p.workflow_id, p.current_step, p.data, sError⟩ ∧
    (execute_workflow fuel pauseAt st pid).state.agents = st.agents ∧
    (execute_workflow fuel pauseAt st pid).state.workflows = st.workflows ∧
    (∀ pid', pid' ≠ pid →
      dget (execute_workflow fuel pauseAt st pid).state.active_processes
          pid'
        = dget st.active_processes pid') := by
  obtain ⟨f, rfl⟩ : ∃ f, fuel = f + 1 := ⟨fuel - 1, by omega⟩
  have hrw : execute_workflow (f + 1) pauseAt st pid
      = ⟨setProc st pid { p with status := sError }, [], false, false⟩ := by
    simp [execute_workflow, hp, hw, execLoop, hagent, hcur, hrun]
  rw [hrw]
  refine ⟨rfl, rfl, ?_, rfl, rfl, ?_⟩
  · show dget (dset st.active_processes pid { p with status := sError })
        pid = _
    rw [dget_dset_self]
  · intro pid' hne
    show dget (dset st.active_processes pid { p with status := sError })
        pid' = _
    exact dget_dset_ne _ pid pid' _ (fun hh => hne hh.symm)

def stC5 : OrchState Nat :=
  ⟨[], [("w", [⟨"ghost", "t0", none⟩])],
    [("p1", ⟨"w", 0, [], sRunning⟩), ("p2", ⟨"w", 0, [], sRunning⟩)]⟩

/-- Witness for C5 on a concrete one-step workflow whose step names an
unregistered agent. -/
theorem agent_not_found_fatal_witness :
    (execute_workflow 3 none stC5 ("p1")).dispatches = [] ∧
    (execute_workflow 3 none stC5 ("p1")).faulted = false ∧
    dget (execute_workflow 3 none stC5 ("p1")).state.active_processes
        ("p1") = some ⟨"w", 0, [], sError⟩ ∧
    (execute_workflow 3 none stC5 ("p1")).state.agents = stC5.agents ∧
    (execute_workflow 3 none stC5 ("p1")).state.workflows
      = stC5.workflows ∧
    (∀ pid', pid' ≠ ("p1") →
      dget (execute_workflow 3 none stC5 ("p1")).state.active_processes
          pid'
        = dget stC5.active_processes pid') := by
  exact agent_not_found_fatal stC5 ("p1") ⟨"w", 0, [], sRunning⟩
    [⟨"ghost", "t0", none⟩] 3 none rfl rfl rfl (by decide) rfl (by omega)

/-! Unfolding lemmas for one iteration of the execution loop, one per
branch of the loop body. -/

/-- The request message built for the agent at lines 156-162. -/
def loopMsg {V : Type} (pid : String) (wf : List Step) (p : Process V) :
    Msg V :=
  ⟨pid, (stepAt wf p.current_step).message_type, p.data, p.workflow_id,
    p.current_step⟩

theorem sError_ne_sCompleted : sError ≠ sCompleted := by decide

theorem sRunning_ne_sCompleted : sRunning ≠ sCompleted := by decide

theorem sPaused_ne_sRunning : sPaused ≠ sRunning := by decide

theorem execLoop_exit {V : Type} (pid : String) (wf : List Step)
    (pauseAt : Option Nat) (fuel dc : Nat) (st : OrchState V)
    (p : Process V) (hp : dget st.active_processes pid = some p)
    (hstop : ¬ (p.current_step < wf.length ∧ p.status = sRunning)) :
    execLoop pid wf pauseAt (fuel + 1) st dc = ⟨st, [], false, false⟩ := by
  by_cases hc : p.current_step < wf.length
  · have hs : ¬ p.status = sRunning := fun hs => hstop ⟨hc, hs⟩
    simp [execLoop, hp, hc, hs]
  · simp [execLoop, hp, hc]

theorem execLoop_noagent {V : Type} (pid : String) (wf : List Step)
    (pauseAt : Option Nat) (fuel dc : Nat) (st : OrchState V)
    (p : Process V) (hp : dget st.active_processes pid = some p)
    (hc : p.current_step < wf.length) (hs : p.status = sRunning)
    (ha : dget st.agents (stepAt wf p.current_step).agent_id = none) :
    execLoop pid wf pauseAt (fuel + 1) st dc
      = ⟨setProc st pid ⟨p.workflow_id, p.current_step, p.data, sError⟩,
          [], false, false⟩ := by
  simp [execLoop, hp, hc, hs, ha]

theorem execLoop_fault {V : Type} (pid : String) (wf : List Step)
    (pauseAt : Option Nat) (fuel dc : Nat) (st : OrchState V)
    (p : Process V) (b : AgentBehavior V) (e : Unit)
    (hp : dget st.active_processes pid = some p)
    (hc : p.current_step < wf.length) (hs : p.status = sRunning)
    (hb : dget st.agents (stepAt wf p.current_step).agent_id = some b)
    (hf : b (loopMsg pid wf p) = Except.error e) :
    execLoop pid wf pauseAt (fuel + 1) st dc
      = ⟨(if pauseAt = some dc then
            setProc st pid ⟨p.workflow_id, p.current_step, p.data, sPaused⟩
          else st),
          [⟨(stepAt wf p.current_step).agent_id, loopMsg pid wf p⟩],
          true, false⟩ := by
  have hf' : b ⟨pid, (stepAt wf p.current_step).message_type, p.data,
      p.workflow_id, p.current_step⟩ = Except.error e := hf
  simp [execLoop, hp, hc, hs, hb, hf', loopMsg]

theorem execLoop_ok_implicit {V : Type} (pid : String) (wf : List Step)
    (pauseAt : Option Nat) (fuel dc : Nat) (st : OrchState V)
    (p : Process V) (b : AgentBehavior V) (rsp : Rsp V)
    (hp : dget st.active_processes pid = some p)
    (hc : p.current_step < wf.length) (hs : p.status = sRunning)
    (hb : dget st.agents (stepAt wf p.current_step).agent_id = some b)
    (ht : (stepAt wf p.current_step).transition = none)
    (hk : b (loopMsg pid wf p) = Except.ok rsp) :
    execLoop pid wf pauseAt (fuel + 1) st dc
      = ⟨(execLoop pid wf pauseAt fuel
            (setProc st pid ⟨p.workflow_id, p.current_step + 1,
              dupdate p.data rsp.data,
              if wf.length ≤ p.current_step + 1 then sCompleted
              else if pauseAt = some dc then sPaused else p.status⟩)
            (dc + 1)).state,
          ⟨(stepAt wf p.current_step).agent_id, loopMsg pid wf p⟩
            :: (execLoop pid wf pauseAt fuel
              (setProc st pid ⟨p.workflow_id, p.current_step + 1,
                dupdate p.data rsp.data,
                if wf.length ≤ p.current_step + 1 then sCompleted
                else if pauseAt = some dc then sPaused else p.status⟩)
              (dc + 1)).dispatches,
          (execLoop pid wf pauseAt fuel
            (setProc st pid ⟨p.workflow_id, p.current_step + 1,
              dupdate p.data rsp.data,
              if wf.length ≤ p.current_step + 1 then sCompleted
              else if pauseAt = some dc then sPaused else p.status⟩)
            (dc + 1)).faulted,
          (execLoop pid wf pauseAt fuel
            (setProc st pid ⟨p.workflow_id, p.current_step + 1,
              dupdate p.data rsp.data,
              if wf.length ≤ p.current_step + 1 then sCompleted
              else if pauseAt = some dc then sPaused else p.status⟩)
            (dc + 1)).fuelOut⟩ := by
  have hk' : b ⟨pid, (stepAt wf p.current_step).message_type, p.data,
      p.workflow_id, p.current_step⟩ = Except.ok rsp := hk
  simp [execLoop, hp, hc, hs, hb, hk', ht, loopMsg]

/-- Behavior of the execution loop on a workflow with only implicit
transitions and no pause signal, by induction on the fuel: no fuel
exhaustion, registries preserved, dispatches form the in-order prefix of
the remaining steps, and the process ends completed exactly when every
remaining step resolves its agent and no handler faults during the run. -/
theorem execLoop_implicit_spec {V : Type} (pid : String) (wf : List Step)
    (hall : ∀ s ∈ wf, s.transition = none) :
    ∀ (fuel : Nat) (st : OrchState V) (p : Process V) (dc : Nat),
      dget st.active_processes pid = some p →
      p.status = sRunning →
      p.current_step < wf.length →
      wf.length - p.current_step < fuel →
      ∀ r, r = execLoop pid wf none fuel st dc →
      r.fuelOut = false ∧
      r.state.agents = st.agents ∧
      r.state.workflows = st.workflows ∧
      r.dispatches.length ≤ wf.length - p.current_step ∧
      (∀ k, k < r.dispatches.length →
        (r.dispatches.getD k default).message.step_id
            = p.current_step + k ∧
        (r.dispatches.getD k default).message.type
            = (stepAt wf (p.current_step + k)).message_type ∧
        (r.dispatches.getD k default).agent_id
            = (stepAt wf (p.current_step + k)).agent_id) ∧
      (((dget r.state.active_processes pid).map Process.status
          = some sCompleted) ↔
        ((∀ i, p.current_step ≤ i → i < wf.length →
            (dget st.agents ((stepAt wf i).agent_id)).isSome)
          ∧ r.faulted = false)) ∧
      ((dget r.state.active_processes pid).map Process.status
          = some sCompleted →
        r.dispatches.length = wf.length - p.current_step) := by
  intro fuel
  induction fuel with
  | zero => intro st p dc hp hs hc hfuel; omega
  | succ fuel ih =>
      intro st p dc hp hs hc hfuel r hr
      cases hb : dget st.agents (stepAt wf p.current_step).agent_id with
      | none =>
          rw [execLoop_noagent pid wf none fuel dc st p hp hc hs hb] at hr
          subst hr
          have hq := dget_setProc_self st pid
            ⟨p.workflow_id, p.current_step, p.data, sError⟩
          refine ⟨rfl, rfl, rfl, by simp, ?_, ?_, ?_⟩
          · intro k hk
            simp at hk
          · constructor
            · intro hcomp
              rw [hq] at hcomp
              simp at hcomp
              exact absurd hcomp sError_ne_sCompleted
            · rintro ⟨hres, -⟩
              have := hres p.current_step (le_refl _) hc
              rw [hb] at this
              simp at this
          · intro hcomp
            rw [hq] at hcomp
            simp at hcomp
            exact absurd hcomp sError_ne_sCompleted
      | some b =>
          cases hbr : b (loopMsg pid wf p) with
          | error e =>
              rw [execLoop_fault pid wf none fuel dc st p b e hp hc hs hb
                hbr] at hr
              simp only [reduceCtorEq, if_false] at hr
              subst hr
              refine ⟨rfl, rfl, rfl, by simp; omega, ?_, ?_, ?_⟩
              · intro k hk
                simp at hk
                subst hk
                exact ⟨by simp [loopMsg], by simp [loopMsg], by simp⟩
              · constructor
                · intro hcomp
                  rw [hp] at hcomp
                  simp at hcomp
                  rw [hs] at hcomp
                  exact absurd hcomp sRunning_ne_sCompleted
                · rintro ⟨-, hfaulted⟩
                  simp at hfaulted
              · intro hcomp
                rw [hp] at hcomp
                simp at hcomp
                rw [hs] at hcomp
                exact absurd hcomp sRunning_ne_sCompleted
          | ok rsp =>
              have htr : (stepAt wf p.current_step).transition = none := by
                apply hall
                rw [stepAt, List.getD_eq_getElem wf default hc]
                exact List.getElem_mem hc
              rw [execLoop_ok_implicit pid wf none fuel dc st p b rsp hp hc
                hs hb htr hbr] at hr
              simp only [reduceCtorEq, if_false] at hr
              by_cases hlast : wf.length ≤ p.current_step + 1
              · rw [if_pos hlast] at hr
                have hp2 := dget_setProc_self st pid
                  ⟨p.workflow_id, p.current_step + 1,
                    dupdate p.data rsp.data, sCompleted⟩
                obtain ⟨f2, rfl⟩ : ∃ f2, fuel = f2 + 1 :=
                  ⟨fuel - 1, by omega⟩
                rw [execLoop_exit pid wf none f2 (dc + 1) _ _ hp2
                  (by intro hcon; simp at hcon; omega)] at hr
                subst hr
                refine ⟨rfl, rfl, rfl, by simp; omega, ?_, ?_, ?_⟩
                · intro k hk
                  simp at hk
                  subst hk
                  exact ⟨by simp [loopMsg], by simp [loopMsg], by simp⟩
                · constructor
                  · intro _
                    refine ⟨?_, rfl⟩
                    intro i hi1 hi2
                    have : i = p.current_step := by omega
                    subst this
                    rw [hb]
                    rfl
                  · intro _
                    rw [hp2]
                    rfl
                · intro _
                  simp
                  omega
              · rw [if_neg hlast] at hr
                have hnl : p.current_step + 1 < wf.length := by omega
                have hp2 := dget_setProc_self st pid
                  ⟨p.workflow_id, p.current_step + 1,
                    dupdate p.data rsp.data, p.status⟩
                have ihr := ih (setProc st pid
                    ⟨p.workflow_id, p.current_step + 1,
                      dupdate p.data rsp.data, p.status⟩)
                  ⟨p.workflow_id, p.current_step + 1,
                    dupdate p.data rsp.data, p.status⟩ (dc + 1)
                  hp2 hs hnl
                  (by show wf.length - (p.current_step + 1) < fuel; omega)
                  _ rfl
                dsimp only at ihr
                obtain ⟨ih1, ih2, ih3, ih4, ih5, ih6, ih7⟩ := ihr
                subst hr
                refine ⟨ih1, ih2, ih3, ?_, ?_, ?_, ?_⟩
                · simp only [List.length_cons]
                  omega
                · intro k hk
                  cases k with
                  | zero =>
                      exact ⟨by simp [loopMsg], by simp [loopMsg],
                        by simp⟩
                  | succ j =>
                      simp only [List.length_cons] at hk
                      have hj := ih5 j (by omega)
                      have e1 : p.current_step + 1 + j
                          = p.current_step + (j + 1) := by omega
                      rw [e1] at hj
                      simpa using hj
                · rw [ih6]
                  constructor
                  · rintro ⟨hres, hfa⟩
                    refine ⟨?_, hfa⟩
                    intro i hi1 hi2
                    by_cases hieq : i = p.current_step
                    · subst hieq
                      rw [hb]
                      rfl
                    · exact hres i (by omega) hi2
                  · rintro ⟨hres, hfa⟩
                    exact ⟨fun i hi1 hi2 => hres i (by omega) hi2, hfa⟩
                · intro hcomp
                  have := ih7 hcomp
                  simp only [List.length_cons]
                  omega

/-- Claim C1 amended: for every workflow of length N with N at least 1 and
only implicit transitions, and every started process of it, the execution
loop dispatches steps 0..N-1 in that order, each dispatch carrying the
message type of the step and step_id equal to the step index, and the
process reaches status completed if and only if every step resolves its
agent in the agent registry and no agent handler faults during the run.
(The restriction N at least 1 is forced: for N = 0 the loop exits at once
and the process stays running forever, see the counterexample.) -/
theorem implicit_workflow_execution {V : Type} (st : OrchState V)
    (pid : String) (p : Process V) (wf : List Step) (fuel : Nat)
    (hall : ∀ s ∈ wf, s.transition = none)
    (hp : dget st.active_processes pid = some p)
    (hw : dget st.workflows p.workflow_id = some wf)
    (hs : p.status = sRunning) (hc0 : p.current_step = 0)
    (hN : 1 ≤ wf.length) (hfuel : wf.length < fuel) :
    (execute_workflow fuel none st pid).fuelOut = false ∧
    (execute_workflow fuel none st pid).dispatches.length ≤ wf.length ∧
    (∀ k, k < (execute_workflow fuel none st pid).dispatches.length →
      ((execute_workflow fuel none st pid).dispatches.getD k
          default).message.step_id = k ∧
      ((execute_workflow fuel none st pid).dispatches.getD k
          default).message.type = (stepAt wf k).message_type ∧
      ((execute_workflow fuel none st pid).dispatches.getD k
          default).agent_id = (stepAt wf k).agent_id) ∧
    (((dget (execute_workflow fuel none st pid).state.active_processes
          pid).map Process.status = some sCompleted) ↔
      ((∀ i, i < wf.length →
          (dget st.agents ((stepAt wf i).agent_id)).isSome)
        ∧ (execute_workflow fuel none st pid).faulted = false)) ∧
    ((dget (execute_workflow fuel none st pid).state.active_processes
        pid).map Process.status = some sCompleted →
      (execute_workflow fuel none st pid).dispatches.length
        = wf.length) := by
  have hxw : execute_workflow fuel none st pid
      = execLoop pid wf none fuel st 0 := by
    simp [execute_workflow, hp, hw]
  have hmain := execLoop_implicit_spec pid wf hall fuel st p 0 hp hs
    (by omega) (by omega) _ rfl
  rw [hc0] at hmain
  obtain ⟨h1, h2, h3, h4, h5, h6, h7⟩ := hmain
  rw [hxw]
  refine ⟨h1, by simpa using h4, ?_, ?_, ?_⟩
  · intro k hk
    have := h5 k hk
    simpa using this
  · constructor
    · intro hcomp
      obtain ⟨hres, hfa⟩ := h6.1 hcomp
      exact ⟨fun i hi => hres i (by omega) hi, hfa⟩
    · rintro ⟨hres, hfa⟩
      exact h6.2 ⟨fun i hi1 hi2 => hres i hi2, hfa⟩
  · intro hcomp
    have := h7 hcomp
    simpa using this

def stC1 : OrchState Nat :=
  ⟨[], [("w", [])], [("p1", ⟨"w", 0, [], sRunning⟩)]⟩

/-- Counterexample to claim C1 as stated: for the empty workflow, which
has only implicit transitions vacuously, a started process never reaches
status completed even though every step trivially resolves its agent and
no handler faults: the loop exits at once and the status stays running. -/
theorem implicit_workflow_empty_counterexample :
    (∀ s ∈ ([] : List Step), s.transition = none) ∧
    (execute_workflow 3 none stC1 ("p1")).faulted = false ∧
    (∀ i, i < ([] : List Step).length →
      (dget stC1.agents ((stepAt [] i).agent_id)).isSome) ∧
    (dget (execute_workflow 3 none stC1 ("p1")).state.active_processes
        ("p1")).map Process.status = some sRunning ∧
    sRunning ≠ sCompleted := by
  refine ⟨by simp, rfl, by simp, rfl, by decide⟩

def okAgent : AgentBehavior Nat := fun _ => Except.ok ⟨[("done", 1)]⟩

def stC1w : OrchState Nat :=
  ⟨[("a1", okAgent)], [("w", [⟨"a1", "t0", none⟩])],
    [("p1", ⟨"w", 0, [], sRunning⟩)]⟩

/-- Witness for the amended C1: a started one-step workflow whose agent
resolves and succeeds ends completed. -/
theorem implicit_workflow_execution_witness :
    (dget (execute_workflow 3 none stC1w ("p1")).state.active_processes
        ("p1")).map Process.status = some sCompleted := by
  have h := implicit_workflow_execution stC1w ("p1")
    ⟨"w", 0, [], sRunning⟩ [⟨"a1", "t0", none⟩] 3
    (by intro s hs; simp at hs; rw [hs]) rfl rfl rfl rfl
    (by decide) (by decide)
  refine h.2.2.2.1.2 ⟨?_, rfl⟩
  intro i hi
  rcases Nat.lt_one_iff.1 (by simpa using hi) with rfl
  rfl

/-- Behavior of the execution loop when a pause_process control message
lands while dispatch number t is in flight, on an implicit-transition
workflow whose agents all resolve and never fault: the loop still
completes the in-flight step, merges it, advances the cursor past it, and
only then observes the pause and stops. -/
theorem execLoop_pause_spec {V : Type} (pid : String) (wf : List Step)
    (hall : ∀ s ∈ wf, s.transition = none) (t : Nat) (ht : t < wf.length) :
    ∀ (fuel : Nat) (st : OrchState V) (p : Process V),
      (∀ i, i < wf.length →
        ∃ b, dget st.agents ((stepAt wf i).agent_id) = some b ∧
          ∀ m, ∃ rsp, b m = Except.ok rsp) →
      dget st.active_processes pid = some p →
      p.status = sRunning →
      p.current_step ≤ t →
      wf.length - p.current_step < fuel →
      ∀ r, r = execLoop pid wf (some t) fuel st p.current_step →
      (r.dispatches.map (fun d => d.message.step_id)
        = List.range' p.current_step (t + 1 - p.current_step)) ∧
      r.faulted = false ∧
      ∃ q : Process V, dget r.state.active_processes pid = some q ∧
        q.current_step = t + 1 ∧
        q.status = (if t + 1 < wf.length then sPaused else sCompleted) := by
  intro fuel
  induction fuel with
  | zero => intro st p hag hp hs hct hfuel; omega
  | succ fuel ih =>
      intro st p hag hp hs hct hfuel r hr
      have hc : p.current_step < wf.length := by omega
      obtain ⟨b, hb, hok⟩ := hag p.current_step hc
      obtain ⟨rsp, hbr⟩ := hok (loopMsg pid wf p)
      have htr : (stepAt wf p.current_step).transition = none := by
        apply hall
        rw [stepAt, List.getD_eq_getElem wf default hc]
        exact List.getElem_mem hc
      rw [execLoop_ok_implicit pid wf (some t) fuel p.current_step st p b
        rsp hp hc hs hb htr hbr] at hr
      by_cases hlast : wf.length ≤ p.current_step + 1
      · have hnow : p.current_step = t := by omega
        rw [if_pos hlast] at hr
        have hp2 := dget_setProc_self st pid
          ⟨p.workflow_id, p.current_step + 1,
            dupdate p.data rsp.data, sCompleted⟩
        obtain ⟨f2, rfl⟩ : ∃ f2, fuel = f2 + 1 := ⟨fuel - 1, by omega⟩
        rw [execLoop_exit pid wf (some t) f2 (p.current_step + 1) _ _
          hp2 (by intro hcon; simp at hcon; omega)] at hr
        subst hr
        refine ⟨?_, rfl, ?_⟩
        · have e1 : t + 1 - p.current_step = 1 := by omega
          rw [e1]
          simp [loopMsg, hnow]
        · refine ⟨⟨p.workflow_id, p.current_step + 1,
            dupdate p.data rsp.data, sCompleted⟩, hp2,
            (by show p.current_step + 1 = t + 1; omega), ?_⟩
          have : ¬ (t + 1 < wf.length) := by omega
          simp [this]
      · rw [if_neg hlast] at hr
        by_cases hnow : p.current_step = t
        · rw [if_pos (by rw [hnow])] at hr
          have hp2 := dget_setProc_self st pid
            ⟨p.workflow_id, p.current_step + 1,
              dupdate p.data rsp.data, sPaused⟩
          obtain ⟨f2, rfl⟩ : ∃ f2, fuel = f2 + 1 := ⟨fuel - 1, by omega⟩
          rw [execLoop_exit pid wf (some t) f2 (p.current_step + 1) _ _
            hp2 (by rintro ⟨-, hcon⟩; exact sPaused_ne_sRunning hcon)]
            at hr
          subst hr
          refine ⟨?_, rfl, ?_⟩
          · have e1 : t + 1 - p.current_step = 1 := by omega
            rw [e1]
            simp [loopMsg, hnow]
          · refine ⟨⟨p.workflow_id, p.current_step + 1,
              dupdate p.data rsp.data, sPaused⟩, hp2,
              (by show p.current_step + 1 = t + 1; omega), ?_⟩
            have : t + 1 < wf.length := by omega
            simp [this]
        · rw [if_neg (fun hh => hnow (Option.some.inj hh).symm)] at hr
          have hp2 := dget_setProc_self st pid
            ⟨p.workflow_id, p.current_step + 1,
              dupdate p.data rsp.data, p.status⟩
          have ihr := ih (setProc st pid
              ⟨p.workflow_id, p.current_step + 1,
                dupdate p.data rsp.data, p.status⟩)
            ⟨p.workflow_id, p.current_step + 1,
              dupdate p.data rsp.data, p.status⟩
            hag hp2 hs (by show p.current_step + 1 ≤ t; omega)
            (by show wf.length - (p.current_step + 1) < fuel; omega)
            _ rfl
          dsimp only at ihr
          obtain ⟨ihm, ihf, q, hq, hqc, hqs⟩ := ihr
          subst hr
          refine ⟨?_, ihf, q, hq, hqc, hqs⟩
          have e2 : t + 1 - (p.current_step + 1) = t - p.current_step := by
            omega
          have e3 : t + 1 - p.current_step = (t - p.current_step) + 1 := by
            omega
          rw [e2] at ihm
          rw [e3, List.range'_succ]
          simp only [List.map_cons, ihm]
          simp [loopMsg]

/-- Claim C4 amended: a pause_process arriving while dispatch t is in
flight lets that step complete and its response merge, and the loop
performs no further dispatch: the dispatched step ids are exactly 0..t.
The cursor, however, ends at t + 1, the successor of the in-flight step,
not at the in-flight index; and when the in-flight step was the last one
the completion check at the end of the loop body overwrites the pause, so
the process ends completed rather than paused. -/
theorem pause_loop_behavior {V : Type} (st : OrchState V) (pid : String)
    (p : Process V) (wf : List Step) (fuel t : Nat)
    (hall : ∀ s ∈ wf, s.transition = none)
    (hag : ∀ i, i < wf.length →
      ∃ b, dget st.agents ((stepAt wf i).agent_id) = some b ∧
        ∀ m, ∃ rsp, b m = Except.ok rsp)
    (hp : dget st.active_processes pid = some p)
    (hw : dget st.workflows p.workflow_id = some wf)
    (hs : p.status = sRunning) (hc0 : p.current_step = 0)
    (ht : t < wf.length) (hfuel : wf.length < fuel) :
    ((execute_workflow fuel (some t) st pid).dispatches.map
        (fun d => d.message.step_id)) = List.range' 0 (t + 1) ∧
    (execute_workflow fuel (some t) st pid).faulted = false ∧
    ∃ q : Process V,
      dget (execute_workflow fuel (some t) st pid).state.active_processes
          pid = some q ∧
      q.current_step = t + 1 ∧
      q.status = (if t + 1 < wf.length then sPaused else sCompleted) := by
  have hxw : execute_workflow fuel (some t) st pid
      = execLoop pid wf (some t) fuel st p.current_step := by
    rw [hc0]
    simp [execute_workflow, hp, hw]
  have hmain := execLoop_pause_spec pid wf hall t ht fuel st p hag hp hs
    (by omega) (by omega) _ rfl
  rw [hc0] at hmain
  rw [hxw, hc0]
  simpa using hmain

def stC4 : OrchState Nat :=
  ⟨[("a1", okAgent)],
    [("w", [⟨"a1", "t0", none⟩, ⟨"a1", "t1", none⟩])],
    [("p1", ⟨"w", 0, [], sRunning⟩)]⟩

/-- Counterexample to claim C4 as stated: pause arrives while step 0 of a
two-step workflow is in flight; after the loop stops, current_step is 1,
the successor of the in-flight step, not the in-flight index 0. -/
theorem pause_current_step_counterexample :
    ((execute_workflow 5 (some 0) stC4 ("p1")).dispatches.map
        (fun d => d.message.step_id)) = [0] ∧
    (dget (execute_workflow 5 (some 0) stC4 ("p1")).state.active_processes
        ("p1")).map Process.current_step = some 1 ∧
    (dget (execute_workflow 5 (some 0) stC4 ("p1")).state.active_processes
        ("p1")).map Process.status = some sPaused ∧
    (1 : Nat) ≠ 0 := by
  refine ⟨rfl, rfl, rfl, by decide⟩

/-- Witness for the amended C4 on the same two-step workflow: pausing
during step 0 leaves the cursor at 1 and the status paused. -/
theorem pause_loop_behavior_witness :
    ((execute_workflow 5 (some 0) stC4 ("p1")).dispatches.map
        (fun d => d.message.step_id)) = List.range' 0 (0 + 1) ∧
    (execute_workflow 5 (some 0) stC4 ("p1")).faulted = false ∧
    ∃ q : Process Nat,
      dget (execute_workflow 5 (some 0) stC4 ("p1")).state.active_processes
          ("p1") = some q ∧
      q.current_step = 0 + 1 ∧
      q.status = (if 0 + 1 < [(⟨"a1", "t0", none⟩ : Step),
          ⟨"a1", "t1", none⟩].length then sPaused else sCompleted) := by
  exact pause_loop_behavior stC4 ("p1") ⟨"w", 0, [], sRunning⟩
    [⟨"a1", "t0", none⟩, ⟨"a1", "t1", none⟩] 5 0
    (by intro s hs; simp at hs; rcases hs with h | h <;> rw [h])
    (by
      intro i hi
      refine ⟨okAgent, ?_, fun m => ⟨⟨[("done", 1)]⟩, rfl⟩⟩
      simp at hi
      interval_cases i <;> rfl)
    rfl rfl rfl rfl (by decide) (by decide)

/-! JD analyzer agent (JDAnalyzerAgent, src/JD_analyser.py).

Text is embedded as List Char.  The regex fragments the module actually
uses are compiled by hand into token sequences matched greedily without
backtracking; for each pattern of the source this is exact, because every
optional or repeated piece is followed by a literal that cannot overlap
with it (whitespace runs are followed by letters, an optional apostrophe,
dot, plus or s is never followed by a literal starting with the same
character class), so the greedy match succeeds exactly when the
backtracking regex engine would.  re.IGNORECASE is embedded by comparing
lowercased characters; all pattern and input characters are ASCII. -/

def apoC : Char := Char.ofNat 39

def nlC : Char := Char.ofNat 10

/-- The character class of the regex \s and of Python str.strip. -/
def pySpace (c : Char) : Bool :=
  c == (' ') || c == Char.ofNat 9 || c == nlC || c == Char.ofNat 13
    || c == Char.ofNat 11 || c == Char.ofNat 12

/-- The word-character class of the regex \b boundary. -/
def wordChar (c : Char) : Bool :=
  ((('a') ≤ c && c ≤ ('z')) || (('A') ≤ c && c ≤ ('Z'))
    || (('0') ≤ c && c ≤ ('9')) || c == ('_'))

def lcEq (a b : Char) : Bool := a.toLower == b.toLower

/-- Token of a hand-compiled regex: a case-insensitive literal, a
whitespace run \s+, or an optional single character. -/
inductive RTok where
  | lit (cs : List Char)
  | ws
  | optChar (c : Char)

/-- Match a literal case-insensitively at the head, returning the rest. -/
def matchLit : List Char → List Char → Option (List Char)
  | [], s => some s
  | _ :: _, [] => none
  | c :: cs, x :: xs => if lcEq c x then matchLit cs xs else none

/-- Match a token sequence at the head of the text, greedily. -/
def matchToks : List RTok → List Char → Option (List Char)
  | [], s => some s
  | RTok.lit cs :: ts, s =>
      match matchLit cs s with
      | some s' => matchToks ts s'
      | none => none
  | RTok.ws :: ts, s =>
      match s with
      | [] => none
      | x :: xs =>
          if pySpace x then matchToks ts (xs.dropWhile (fun c => pySpace c))
          else none
  | RTok.optChar c :: ts, s =>
      match s with
      | [] => matchToks ts []
      | x :: xs => if lcEq c x then matchToks ts xs else matchToks ts s

/-- First alternation branch matching at the head; returns the number of
characters consumed (regex alternation tries branches left to right). -/
def branchesMatchAt (branches : List (List RTok)) (s : List Char) :
    Option Nat :=
  match branches with
  | [] => none
  | b :: bs =>
      match matchToks b s with
      | some rest => some (s.length - rest.length)
      | none => branchesMatchAt bs s

/-- re.search: leftmost match of the alternation in the given suffix,
whose absolute offset is i; returns absolute start and length. -/
def searchPat (branches : List (List RTok)) :
    List Char → Nat → Option (Nat × Nat)
  | [], i =>
      match branchesMatchAt branches [] with
      | some n => some (i, n)
      | none => none
  | x :: xs, i =>
      match branchesMatchAt branches (x :: xs) with
      | some n => some (i, n)
      | none => searchPat branches xs (i + 1)

/-- re.finditer: successive non-overlapping leftmost matches.  The fuel is
only a termination bound; every pattern used below consumes at least one
character per match, so text.length + 1 fuel is never exhausted. -/
def finditerAux (branches : List (List RTok)) :
    Nat → List Char → Nat → List (Nat × Nat)
  | 0, _, _ => []
  | fuel + 1, s, i =>
      match searchPat branches s i with
      | none => []
      | some (st, n) =>
          (st, n) :: finditerAux branches fuel (s.drop (st + n - i)) (st + n)

def finditerPat (branches : List (List RTok)) (text : List Char) :
    List (Nat × Nat) :=
  finditerAux branches (text.length + 1) text 0

/-- Python str.strip. -/
def pyStrip (s : List Char) : List Char :=
  (((s.dropWhile (fun c => pySpace c)).reverse.dropWhile
    (fun c => pySpace c))).reverse

/-- The six section header patterns of _extract_sections (lines 131-138),
compiled branch by branch. -/
def sectionPatterns : List (List (List RTok) × String) :=
  [([[RTok.lit (("job").data), RTok.ws, RTok.lit (("summary").data)],
     [RTok.lit (("summary").data)],
     [RTok.lit (("about").data), RTok.ws, RTok.lit (("the").data),
      RTok.ws, RTok.lit (("role").data)]], "summary"),
   ([[RTok.lit (("responsibilities").data)],
     [RTok.lit (("duties").data)],
     [RTok.lit (("what").data), RTok.ws,
      RTok.lit (("you").data ++ [apoC] ++ ("ll").data), RTok.ws,
      RTok.lit (("do").data)]], "responsibilities"),
   ([[RTok.lit (("requirements").data)],
     [RTok.lit (("qualifications").data)],
     [RTok.lit (("what").data), RTok.ws,
      RTok.lit (("you").data ++ [apoC] ++ ("ll").data), RTok.ws,
      RTok.lit (("need").data)]], "requirements"),
   ([[RTok.lit (("preferred").data), RTok.ws,
      RTok.lit (("qualifications").data)],
     [RTok.lit (("nice").data), RTok.ws, RTok.lit (("to").data),
      RTok.ws, RTok.lit (("have").data)]], "preferred_qualifications"),
   ([[RTok.lit (("benefits").data)],
     [RTok.lit (("perks").data)],
     [RTok.lit (("what").data), RTok.ws, RTok.lit (("we").data),
      RTok.ws, RTok.lit (("offer").data)]], "benefits"),
   ([[RTok.lit (("about").data), RTok.ws, RTok.lit (("us").data)],
     [RTok.lit (("company").data)],
     [RTok.lit (("who").data), RTok.ws, RTok.lit (("we").data),
      RTok.ws, RTok.lit (("are").data)]], "about_company")]

/-- Embedding of _extract_sections (lines 124-157): for every pattern, for
every match, the section content runs from the match end to the earliest
following match of any pattern (or the end of the text), stripped; later
matches of the same pattern overwrite the entry. -/
def extract_sections (text : List Char) : Dict (List Char) :=
  sectionPatterns.foldl (fun sections pat =>
    (finditerPat pat.1 text).foldl (fun secs m =>
      let start_idx := m.1 + m.2
      let next_section_start := sectionPatterns.foldl (fun acc pat2 =>
        match searchPat pat2.1 (text.drop start_idx) 0 with
        | some mm =>
            if start_idx + mm.1 < acc then start_idx + mm.1 else acc
        | none => acc) text.length
      dset secs pat.2
        (pyStrip ((text.drop start_idx).take
          (next_section_start - start_idx)))) sections) []

/-- Embedding of _extract_title (lines 159-165): the first line of the
stripped text, stripped.  Python str.split always returns at least one
element, so the lines list is never falsy. -/
def extract_title (text : List Char) : List Char :=
  pyStrip ((pyStrip text).takeWhile (fun c => c != nlC))

/-- Python str.split on the two-character separator of two newlines,
scanning left to right over non-overlapping occurrences. -/
def splitParas : Nat → List Char → List Char → List (List Char)
  | 0, acc, s => [acc.reverse ++ s]
  | fuel + 1, acc, s =>
      match s with
      | [] => [acc.reverse]
      | x :: xs =>
          if x == nlC then
            match xs with
            | y :: ys =>
                if y == nlC then acc.reverse :: splitParas fuel [] ys
                else splitParas fuel (x :: acc) xs
            | [] => splitParas fuel (x :: acc) xs
          else splitParas fuel (x :: acc) xs

/-- Embedding of _generate_summary (lines 167-174). -/
def generate_summary (text : List Char) : List Char :=
  let stripped := pyStrip text
  let paragraphs := splitParas (stripped.length + 1) [] stripped
  if 1 < paragraphs.length then pyStrip (paragraphs.getD 1 [])
  else ("No summary available").data

def common_skills : List String :=
  ["python", "java", "javascript", "sql", "aws", "azure",
   "docker", "kubernetes", "react", "angular", "vue",
   "machine learning", "data analysis", "project management",
   "agile", "scrum", "communication", "leadership"]

/-- Word-boundary match of a skill at the head of s, where prev is the
character just before s (none at the start of the text).  Every skill
starts and ends with a word character, so the regex \b reduces to the
neighbour being absent or a non-word character. -/
def skillAt (sk : List Char) (prev : Option Char) (s : List Char) : Bool :=
  match matchLit sk s with
  | none => false
  | some rest =>
      (match prev with
       | none => true
       | some c => !(wordChar c)) &&
      (match rest with
       | [] => true
       | r :: _ => !(wordChar r))

def skillSearch (sk : List Char) : Option Char → List Char → Bool
  | _, [] => false
  | prev, x :: xs => skillAt sk prev (x :: xs) || skillSearch sk (some x) xs

/-- Embedding of _extract_skills (lines 176-192): keep, in list order, the
known skills found with word boundaries, case-insensitively. -/
def extract_skills (text : List Char) : List String :=
  common_skills.filter (fun sk => skillSearch sk.data none text)

/-- Match of the experience pattern at the head of s: one or more digits,
an optional plus, whitespace, year with optional s, whitespace, an
optional of-plus-whitespace group, then experience (line 197).  Returns
int of the digit group. -/
def matchExpAt (s : List Char) : Option Nat :=
  let ds := s.takeWhile (fun c => c.isDigit)
  if ds.isEmpty then none
  else
    let r0 := s.dropWhile (fun c => c.isDigit)
    let r1 := match r0 with
      | x :: xs => if x == ('+') then xs else r0
      | [] => r0
    match r1 with
    | [] => none
    | x :: xs =>
        if pySpace x then
          let r2 := xs.dropWhile (fun c => pySpace c)
          match matchLit (("year").data) r2 with
          | none => none
          | some r3 =>
              let r4 := match r3 with
                | y :: ys => if lcEq ('s') y then ys else r3
                | [] => r3
              match r4 with
              | [] => none
              | z :: zs =>
                  if pySpace z then
                    let r5 := zs.dropWhile (fun c => pySpace c)
                    let r7 := match matchLit (("of").data) r5 with
                      | some r6 =>
                          match r6 with
                          | w :: ws2 =>
                              if pySpace w then
                                ws2.dropWhile (fun c => pySpace c)
                              else r5
                          | [] => r5
                      | none => r5
                    match matchLit (("experience").data) r7 with
                    | some _ =>
                        some (ds.foldl
                          (fun a c => a * 10 + (c.toNat - 48)) 0)
                    | none => none
                  else none
        else none

def searchExp : List Char → Option Nat
  | [] => none
  | x :: xs =>
      match matchExpAt (x :: xs) with
      | some n => some n
      | none => searchExp xs

structure Experience where
  minimum_years : Option Nat
  senior_level : Option Bool
deriving DecidableEq

/-- Embedding of _extract_experience (lines 194-207).  In the source,
senior_level is years >= 5 if years else None: a falsy years (None or 0)
yields None. -/
def extract_experience (text : List Char) : Experience :=
  let years := searchExp text
  ⟨years,
    match years with
    | none => none
    | some 0 => none
    | some (y + 1) => some (decide (5 ≤ y + 1))⟩

def bachelorBranches : List (List RTok) :=
  [[RTok.lit (("bachelor").data), RTok.optChar apoC,
    RTok.lit (("s").data)],
   [RTok.lit (("ba").data)], [RTok.lit (("bs").data)],
   [RTok.lit (("b.a.").data)], [RTok.lit (("b.s.").data)]]

def masterBranches : List (List RTok) :=
  [[RTok.lit (("master").data), RTok.optChar apoC,
    RTok.lit (("s").data)],
   [RTok.lit (("ma").data)], [RTok.lit (("ms").data)],
   [RTok.lit (("m.a.").data)], [RTok.lit (("m.s.").data)]]

def phdBranches : List (List RTok) :=
  [[RTok.lit (("ph").data), RTok.optChar ('.'),
    RTok.lit (("d").data), RTok.optChar ('.')],
   [RTok.lit (("doctorate").data)]]

/-- re.search as a Bool: does any branch match anywhere in the text? -/
def existsMatch (branches : List (List RTok)) : List Char → Bool
  | [] => branches.any (fun b => (matchToks b []).isSome)
  | x :: xs =>
      branches.any (fun b => (matchToks b (x :: xs)).isSome)
        || existsMatch branches xs

structure Education where
  required_degrees : List String
  degree_required : Bool
deriving DecidableEq

/-- Embedding of _extract_education (lines 209-226): the degree patterns
are tried in dict order bachelor, master, phd, with no word boundaries. -/
def extract_education (text : List Char) : Education :=
  let required_degrees :=
    (if existsMatch bachelorBranches text then [("bachelor" : String)]
     else [])
    ++ (if existsMatch masterBranches text then [("master" : String)]
        else [])
    ++ (if existsMatch phdBranches text then [("phd" : String)] else [])
  ⟨required_degrees, decide (0 < required_degrees.length)⟩

structure JDAnalysis where
  title : List Char
  summary : List Char
  required_skills : List String
  preferred_skills : List String
  experience : Experience
  education : Education
  sections : Dict (List Char)
  embeddings : Option (List Int)
deriving DecidableEq

/-- Embedding of _analyze_job_description (lines 73-122) for an agent
constructed without an embedder (embeddings stays None, as in the claim
scenario); required and preferred skills are extracted from the
corresponding entries of the extracted sections dict, defaulting to the
empty string when the section was not found. -/
def analyze_job_description (jd_text : List Char) : JDAnalysis :=
  let sections := extract_sections jd_text
  ⟨extract_title jd_text,
   generate_summary jd_text,
   extract_skills ((dget sections ("requirements")).getD []),
   extract_skills ((dget sections ("preferred_qualifications")).getD []),
   extract_experience jd_text,
   extract_education jd_text,
   sections,
   none⟩

/-- Message seen by the JD analyzer: its handler reads type,
data.jd_text (default the empty string) and data.jd_id. -/
structure JDMsg where
  type : Option String
  jd_text : Option (List Char)
  jd_id : Option String

inductive JDResponse where
  | complete (jd_id : Option String) (analysis : JDAnalysis)
  | errorRsp (error : String)
deriving DecidableEq

/-- Embedding of JDAnalyzerAgent.process_message (lines 31-71) for an
agent constructed without a db_manager (the storage branch at lines 57-58
is skipped, as in the claim scenario). -/
def jd_process_message (m : JDMsg) : JDResponse :=
  if m.type.getD sUnknown = ("analyze_jd") then
    let jd_text := m.jd_text.getD []
    if jd_text.isEmpty then
      JDResponse.errorRsp ("No job description text provided")
    else JDResponse.complete m.jd_id (analyze_job_description jd_text)
  else
    JDResponse.errorRsp (("Unknown message type for JD Analyzer: ")
      ++ m.type.getD sUnknown)

/-- The jd_text of the end-to-end scenario of the claim. -/
def jdInput : List Char :=
  ("Senior Engineer\n\nWe need 5+ years experience and a bachelor").data
    ++ [apoC] ++ ("s degree in CS. React, Python, AWS required.").data

/-- Counterexample to claim C3: on the spec input, no section header
pattern matches (the text contains required but not requirements), so the
sections dict is empty, skills are extracted from the empty default
string, and required_skills is empty: it does not contain python, aws or
react under any capitalization. -/
theorem jd_analysis_skills_counterexample :
    (analyze_job_description jdInput).required_skills = [] ∧
    ¬ ∃ s ∈ (analyze_job_description jdInput).required_skills,
        s.toLower = ("python") := by
  have h : (analyze_job_description jdInput).required_skills = [] := by
    decide
  refine ⟨h, ?_⟩
  rw [h]
  rintro ⟨s, hs, -⟩
  simp at hs

/-- Claim C3 amended: on the spec input the analysis has required_skills
and preferred_skills empty (skills are read only from the requirements and
preferred_qualifications sections, and this text yields no sections), while
experience.minimum_years = 5, experience.senior_level = true and
education.required_degrees = [bachelor]; routing the analyze_jd message
through the agent handler returns the completed response carrying exactly
this analysis. -/
theorem jd_analysis_on_spec_input :
    (analyze_job_description jdInput).required_skills = [] ∧
    (analyze_job_description jdInput).preferred_skills = [] ∧
    (analyze_job_description jdInput).experience.minimum_years = some 5 ∧
    (analyze_job_description jdInput).experience.senior_level
      = some true ∧
    (analyze_job_description jdInput).education.required_degrees
      = [("bachelor")] ∧
    (analyze_job_description jdInput).sections = [] ∧
    jd_process_message ⟨some ("analyze_jd"), some jdInput, none⟩
      = JDResponse.complete none (analyze_job_description jdInput) := by
  refine ⟨by decide, by decide, by decide, by decide, by decide,
    by decide, by decide⟩

/-- The leaf extractors do find the skills when applied to the full text:
this confirms the amended reading that the emptiness of required_skills
on the spec input comes from the section extraction, not from the skill
matcher. -/
theorem jd_skills_on_full_text :
    extract_skills jdInput = [("python"), ("aws"), ("react")] := by
  decide

end HireAI
